import Mathlib

/-!
Verification of the beam-search decoding engine in
`src/universal_ml_utils/decoding/beam.py`.

The file shallowly embeds the engine: per-batch-element beam lists
(alive / finished / too-long), the `too_long` / `filter_beams` /
`get_outputs` helpers, and the round loop of `beam_search` with its
cache handling, expansion, and pruning.  Tensor-level collaborators
(decode callback, sampling, log-softmax, logit filters, cache reorder)
are kept as opaque parameters, exactly as the source treats them.
Scores are rationals (the scoring function is an external collaborator);
`-inf` sentinels are `⊥` in `WithBot ℚ`.
-/

/-- Modelled from the spec: the `Beam` class lives in
`universal_ml_utils.decoding.utils`, which is not part of the given
source tree.  Per the spec's data model: `token_ids` (ordered, append
only), `initial_length` (seed prefix length, immutable),
`log_probs` (per-token log-probability contributions),
`cache_slot` (index into the external cache, `None` before the first
decode call) and `stop_reason` (set when the beam leaves the alive set). -/
structure Beam where
  tokenIds : List Int
  initialLength : Nat
  logProbs : List ℚ
  cache : Option Nat := none
  stopReason : Option String := none
deriving Repr, DecidableEq, Inhabited

/-- Modelled from the spec: `len(beam)` is the number of tokens. -/
def Beam.length (b : Beam) : Nat := b.tokenIds.length

/-- Modelled from the spec: `decoded_length = len(token_ids) - initial_length`
(Python integer subtraction, so the result may be negative for a
degenerate caller-supplied beam). -/
def Beam.decodedLength (b : Beam) : Int :=
  (b.tokenIds.length : Int) - (b.initialLength : Int)

/-- Modelled from the spec: `last_token_id` is the most recently appended
token (beams are never empty; `0` is a junk value for the empty case). -/
def Beam.lastTokenId (b : Beam) : Int := b.tokenIds.getLastD 0

/-- Modelled from the spec: `add(token_id, log_prob)` appends one token and
its log-probability. -/
def Beam.add (b : Beam) (tokenId : Int) (logProb : ℚ) : Beam :=
  { b with tokenIds := b.tokenIds ++ [tokenId], logProbs := b.logProbs ++ [logProb] }

/-- Modelled from the spec: `clone()` produces an independent copy with the
same token / log-prob history; in a pure embedding this is the identity. -/
def Beam.clone (b : Beam) : Beam := b

/-- Modelled from the spec: `Beam(init)` builds a beam from raw token ids;
the whole sequence is the seed prefix, so nothing has been decoded yet. -/
def Beam.ofTokenIds (ids : List Int) : Beam :=
  { tokenIds := ids, initialLength := ids.length, logProbs := [] }

/-- `too_long` from `beam.py` (lines 71-77): a beam is too long once it
reaches `max_length` total tokens or, when `max_new_tokens` is set, once it
has decoded `max_new_tokens` tokens. -/
def tooLong (maxLength : Int) (maxNewTokens : Option Int) (b : Beam) : Bool :=
  if (b.length : Int) ≥ maxLength then true
  else
    match maxNewTokens with
    | none => false
    | some mnt => b.decodedLength ≥ mnt

/-- Result of classifying one alive beam in `filter_beams` (lines 82-90). -/
inductive Classified where
  | alive (b : Beam)
  | finished (b : Beam)
  | overlong (b : Beam)
deriving Repr, DecidableEq

/-- The per-beam classification step of `filter_beams` (lines 82-90):
`stop_fn` is checked first; only otherwise is `too_long` consulted. -/
def classifyOne (stopFn : Beam → Bool) (maxLength : Int) (maxNewTokens : Option Int)
    (b : Beam) : Classified :=
  if stopFn b then .finished { b with stopReason := some "done" }
  else if tooLong maxLength maxNewTokens b then .overlong { b with stopReason := some "length" }
  else .alive b

/-- The classification loop of `filter_beams` over one element's alive list:
returns `(new_beams, appended finished, appended too_long)` in source order. -/
def classifyList (stopFn : Beam → Bool) (maxLength : Int) (maxNewTokens : Option Int) :
    List Beam → List Beam × List Beam × List Beam
  | [] => ([], [], [])
  | b :: rest =>
    let (na, nf, nl) := classifyList stopFn maxLength maxNewTokens rest
    match classifyOne stopFn maxLength maxNewTokens b with
    | .finished b' => (na, b' :: nf, nl)
    | .overlong b' => (na, nf, b' :: nl)
    | .alive b' => (b' :: na, nf, nl)

/-- `min(..., default=-inf)` over a list of scores, as in line 106-109:
`⊥` plays the role of `float("-inf")`. -/
def foldMin (l : List ℚ) : WithBot ℚ :=
  match l with
  | [] => ⊥
  | x :: xs => ((xs.foldl min x : ℚ) : WithBot ℚ)

/-- `max(...)` over a (nonempty, by the guards in `filter_beams`) list of
scores; `⊥` is junk for the empty case, which the source never reaches. -/
def foldMax (l : List ℚ) : WithBot ℚ :=
  match l with
  | [] => ⊥
  | x :: xs => ((xs.foldl max x : ℚ) : WithBot ℚ)

/-- The three per-batch-element lists: `current_beams[idx]`,
`finished_beams[idx]`, `too_long_beams[idx]`. -/
structure ElemState where
  alive : List Beam
  finished : List Beam
  tooLongList : List Beam
deriving Repr, DecidableEq, Inhabited

/-- The body of `filter_beams` for one batch element (lines 80-126):
classify each alive beam, then, if alive beams and at least `beam_width`
finished beams remain, apply the selected stop condition, possibly
clearing the alive list. -/
def elementFilter (stopFn : Beam → Bool) (scoreFn : Beam → Option Int → ℚ)
    (maxLength : Int) (maxNewTokens : Option Int) (beamWidth : Nat)
    (stopCondition : String) (st : ElemState) : ElemState :=
  let (newAlive, newDone, newLong) := classifyList stopFn maxLength maxNewTokens st.alive
  let fin := st.finished ++ newDone
  let tl := st.tooLongList ++ newLong
  if newAlive = [] then ⟨newAlive, fin, tl⟩
  else if fin.length < beamWidth then ⟨newAlive, fin, tl⟩
  else if stopCondition = "max_outputs" then ⟨[], fin, tl⟩
  else
    let worstFinished : WithBot ℚ := foldMin (fin.map (scoreFn · none))
    let bestCurrent : WithBot ℚ :=
      if stopCondition = "estimated_score" then
        -- best current calculated from current length
        foldMax (newAlive.map (scoreFn · none))
      else
        -- best current calculated from maximum length: assume all remaining
        -- tokens are perfectly predicted with probability 1.0
        let current := newAlive.headI
        let maxDecodedLength : Int := maxLength - (current.initialLength : Int)
        -- Python `max_new_tokens or max_decoded_length`: falls back when
        -- max_new_tokens is None or 0
        let length : Int :=
          match maxNewTokens with
          | none => maxDecodedLength
          | some m => min maxDecodedLength (if m = 0 then maxDecodedLength else m)
        -- `for b in current_beams[idx] if b`: Python truthiness of a Beam
        -- is emptiness of its token list
        foldMax (((newAlive.filter fun b => b.tokenIds.length ≠ 0).map (scoreFn · (some length))))
    if bestCurrent ≤ worstFinished then ⟨[], fin, tl⟩ else ⟨newAlive, fin, tl⟩

/-- `filter_beams` (lines 79-133): filter every batch element, then flatten
the surviving alive beams with their owning batch indices. -/
def filterBeams (stopFn : Beam → Bool) (scoreFn : Beam → Option Int → ℚ)
    (maxLength : Int) (maxNewTokens : Option Int) (beamWidth : Nat)
    (stopCondition : String) (state : List ElemState) :
    List ElemState × List Beam × List Nat :=
  let state' := state.map
    (elementFilter stopFn scoreFn maxLength maxNewTokens beamWidth stopCondition)
  let beams := (state'.map (·.alive)).flatten
  let indices := (state'.enum.map fun p => List.replicate p.2.alive.length p.1).flatten
  (state', beams, indices)

/-- Stable insertion into a descending-by-key list; together with
`sortDesc` this models Python's stable `sorted(key=score_fn, reverse=True)`. -/
def insertDesc (f : Beam → ℚ) (b : Beam) : List Beam → List Beam
  | [] => [b]
  | x :: xs => if f b < f x then x :: insertDesc f b xs else b :: x :: xs

/-- Stable sort, descending by key: the model of
`sorted(..., key=score_fn, reverse=True)`. -/
def sortDesc (f : Beam → ℚ) : List Beam → List Beam
  | [] => []
  | a :: rest => insertDesc f a (sortDesc f rest)

/-- `get_outputs` for one batch element (lines 137-145).  Note that
`finished.extend(...)` mutates `finished_beams[batch_idx]` in place
(`finished` aliases the stored list), so the function both returns the
element's output and updates the element state; the local rebinding
`finished = sorted(finished, ...)` does not affect the stored list. -/
def getOutputsElem (scoreFn : Beam → Option Int → ℚ) (beamWidth : Nat)
    (returnUnfinished : Bool) (st : ElemState) : List Beam × ElemState :=
  let finished := st.finished
  let finished :=
    if returnUnfinished ∧ finished.length < beamWidth then
      let tl := sortDesc (scoreFn · none) st.tooLongList
      finished ++ tl.take (beamWidth - finished.length)
    else finished
  ((sortDesc (scoreFn · none) finished).take beamWidth,
    { st with finished := finished })

/-- `get_outputs` (lines 135-147), threading the in-place mutation of
`finished_beams` through every batch element. -/
def getOutputs (scoreFn : Beam → Option Int → ℚ) (beamWidth : Nat)
    (returnUnfinished : Bool) (state : List ElemState) :
    List (List Beam) × List ElemState :=
  let pairs := state.map (getOutputsElem scoreFn beamWidth returnUnfinished)
  (pairs.map (·.1), pairs.map (·.2))

/-- The tensors handed to the decode callback: one row per alive beam
(`input_ids`, `position_ids`, `pad_mask` of lines 160-185). -/
structure DecodeInput where
  inputIds : List (List Int)
  positionIds : List (List Int)
  padMask : List (List Bool)
deriving Repr, DecidableEq

/-- All arguments of `beam_search` (lines 26-43) except the initial beams.
`Cache`, `Logits` and `LogProbs` are opaque: the source treats the cache
handle, the logit tensor and the log-probability tensor as values produced
and consumed only by external collaborators.  `getLP p i t` reads
`log_probs[i, t]`; `sampleFn` returns, per row, the `(token_id, logit)`
pairs of `sample_fn`, with `⊥` as the `-inf` logit of an invalid candidate. -/
structure Params (Cache Logits LogProbs : Type) where
  padTokenId : Int
  maxLength : Int
  stopFn : Beam → Bool
  beamWidth : Nat
  sampleFn : Logits → Nat → List (List (Int × WithBot ℚ))
  updateFn : Beam → Option Beam
  scoreFn : Beam → Option Int → ℚ
  logitFns : List (Logits → List Beam → Logits)
  cacheFn : Cache → List Nat → List Int → Cache
  decodeFn : DecodeInput → Option Cache → Logits × Cache
  logSoftmax : Logits → LogProbs
  getLP : LogProbs → Nat → Int → ℚ
  stopCondition : String
  maxNewTokens : Option Int
  yieldIntermediate : Bool
  returnUnfinished : Bool

/-- `max` over a nonempty list of integers (`max(cache_lengths)`, line 168);
`0` is junk for the empty case, unreachable since the loop guard
`while beams` guarantees at least one alive beam. -/
def intListMax : List Int → Int
  | [] => 0
  | x :: xs => xs.foldl max x

/-- Lines 154-190: build the decode inputs for one round.  When a cache
handle exists and every alive beam has a cache slot, take the incremental
path: invoke the cache-reorder collaborator once with the per-beam slots
and pre-step lengths `len(beam) - 1`, and feed only each beam's last token.
Otherwise re-encode the full context, left-padded, and clear any stale
cache before decoding.  Returns the decode input together with the cache
value passed to the decode callback. -/
def prepareInputs {Cache Logits LogProbs : Type} (P : Params Cache Logits LogProbs)
    (beams : List Beam) (cache : Option Cache) : DecodeInput × Option Cache :=
  match cache with
  | some c =>
    if beams.all fun b => b.cache.isSome then
      let cacheMask := beams.map fun b => b.cache.getD 0
      let cacheLengths := beams.map fun b => (b.length : Int) - 1
      let cache' := P.cacheFn c cacheMask cacheLengths
      let inputIds := beams.map fun b => [b.lastTokenId]
      let positionIds := beams.map fun b => [(b.length : Int) - 1]
      let maxCacheLength := intListMax cacheLengths + 1
      let padMask := beams.map fun b =>
        List.replicate (maxCacheLength - (b.length : Int)).toNat false ++
          List.replicate b.length true
      (⟨inputIds, positionIds, padMask⟩, some cache')
    else
      -- stale cache: cleared (lines 187-190) before full-context decoding
      (fullInput P beams, none)
  | none => (fullInput P beams, none)
where
  /-- Lines 177-185: full-context inputs, left-padded with `pad_token_id`;
  the mask marks positions whose token differs from `pad_token_id`, and
  position ids are the cumulative count of mask positions minus one,
  clamped to `0` at masked-out positions. -/
  fullInput (P : Params Cache Logits LogProbs) (beams : List Beam) : DecodeInput :=
    let maxLen := intListMax (beams.map fun b => (b.length : Int))
    let rows := beams.map fun b =>
      List.replicate (maxLen - (b.length : Int)).toNat P.padTokenId ++ b.tokenIds
    let padMask := rows.map fun row => row.map fun t => t ≠ P.padTokenId
    let positionIds := padMask.map fun row =>
      (row.enum.map fun p =>
        if p.2 then ((row.take (p.1 + 1)).countP id : Int) - 1 else 0)
    ⟨rows, positionIds, padMask⟩

/-- Lines 211-220: the children of row `i` (whose beam is `beam`): the
valid sampled `(token, logit)` pairs of row `i` (logit not `-inf`), each
appended to a copy of the beam whose cache slot was just set to `i`.
The beam-width-1 fast path mutates `beam` in place instead of cloning;
under the fixed-shape sampling contract it yields at most one child, so
its result coincides with the cloning path modelled here. -/
def rowChildren {Cache Logits LogProbs : Type} (P : Params Cache Logits LogProbs)
    (lp : LogProbs) (sampled : List (List (Int × WithBot ℚ))) (i : Nat) (beam : Beam) :
    List Beam :=
  ((sampled.getD i []).filter fun p => p.2 ≠ ⊥).map fun p =>
    (({ beam with cache := some i }).clone).add p.1 (P.getLP lp i p.1)

/-- Lines 192-220 after the decode call: compute log-probabilities from the
decode logits, apply the logit filters in sequence, sample, and group the
children of every row by owning batch element (`batch_candidates`). -/
def expandRound {Cache Logits LogProbs : Type} (P : Params Cache Logits LogProbs)
    (batchSize : Nat) (logits : Logits) (beams : List Beam) (indices : List Nat) :
    List (List Beam) :=
  let lp := P.logSoftmax logits
  let filtered := P.logitFns.foldl (fun l fn => fn l beams) logits
  let sampled := P.sampleFn filtered P.beamWidth
  (beams.zip indices).enum.foldl
    (fun bc x =>
      bc.modify (· ++ rowChildren P lp sampled x.1 x.2.1) x.2.2)
    (List.replicate batchSize [])

/-- The candidate loop of lines 229-238: apply the update hook to each
candidate in order, skip rejected candidates, and stop as soon as
`beam_width` candidates have been accepted. -/
def pruneLoop (updateFn : Beam → Option Beam) (beamWidth : Nat) :
    List Beam → List Beam → List Beam
  | acc, [] => acc
  | acc, c :: rest =>
    match updateFn c with
    | none => pruneLoop updateFn beamWidth acc rest
    | some c' =>
      let acc' := acc ++ [c']
      if beamWidth ≤ acc'.length then acc' else pruneLoop updateFn beamWidth acc' rest

/-- Lines 222-238 for one batch element: sort the candidates by score
descending, then run the update/keep loop. -/
def pruneElement {Cache Logits LogProbs : Type} (P : Params Cache Logits LogProbs)
    (candidates : List Beam) : List Beam :=
  pruneLoop P.updateFn P.beamWidth [] (sortDesc (P.scoreFn · none) candidates)

/-- One iteration of the `while beams` loop (lines 153-240), up to and
including the `filter_beams` call that ends the round: build inputs,
decode, expand, prune each batch element's candidate list into its new
alive list, and filter.  Returns the new state, flattened beams, indices
and cache handle. -/
def runRound {Cache Logits LogProbs : Type} (P : Params Cache Logits LogProbs)
    (state : List ElemState) (beams : List Beam) (indices : List Nat)
    (cache : Option Cache) :
    List ElemState × List Beam × List Nat × Option Cache :=
  let prepared := prepareInputs P beams cache
  let decoded := P.decodeFn prepared.1 prepared.2
  let batchCandidates := expandRound P state.length decoded.1 beams indices
  let state' := (state.zip batchCandidates).map fun p =>
    { p.1 with alive := pruneElement P p.2 }
  let filtered :=
    filterBeams P.stopFn P.scoreFn P.maxLength P.maxNewTokens P.beamWidth
      P.stopCondition state'
  (filtered.1, filtered.2.1, filtered.2.2, some decoded.2)

/-- The `while beams` loop (lines 153-245), fuel-indexed: each iteration
runs one round and, when `yield_intermediate` is set, assembles (and by
the aliasing in `get_outputs`, mutates) the intermediate outputs.  When
the flattened alive list is empty the final outputs are assembled and
returned together with the yielded snapshots; `none` means the fuel was
insufficient (the Python loop would still be running). -/
def searchLoop {Cache Logits LogProbs : Type} (P : Params Cache Logits LogProbs) :
    Nat → List ElemState → List Beam → List Nat → Option Cache →
    List (List (List Beam)) → Option (List (List Beam) × List (List (List Beam)))
  | fuel, state, beams, indices, cache, yielded =>
    if beams = [] then
      some ((getOutputs P.scoreFn P.beamWidth P.returnUnfinished state).1, yielded.reverse)
    else
      match fuel with
      | 0 => none
      | fuel + 1 =>
        let r := runRound P state beams indices cache
        let y :=
          if P.yieldIntermediate then
            ((getOutputs P.scoreFn P.beamWidth P.returnUnfinished r.1).2,
              (getOutputs P.scoreFn P.beamWidth P.returnUnfinished r.1).1 :: yielded)
          else (r.1, yielded)
        searchLoop P fuel y.1 r.2.1 r.2.2.1 r.2.2.2 y.2

/-- The assertions of lines 44-60: `max_new_tokens` is `None` or positive,
the stop condition is one of the three known ones, `beam_width ≥ 1`, and
every initial beam or token-id list is nonempty.  `max_length` is not
checked. -/
def validateArgs {Cache Logits LogProbs : Type} (P : Params Cache Logits LogProbs)
    (initial : List (List Int ⊕ Beam)) : Bool :=
  (match P.maxNewTokens with | none => true | some m => 0 < m) &&
  (P.stopCondition = "max_score" || P.stopCondition = "estimated_score" ||
    P.stopCondition = "max_outputs") &&
  (1 ≤ P.beamWidth) &&
  (initial.all fun init =>
    match init with
    | .inl ids => ids.length ≠ 0
    | .inr b => b.length ≠ 0)

/-- Lines 59-69: the initial per-element state — one alive beam per batch
element (the supplied beam, or a fresh beam from raw token ids) and empty
finished / too-long lists. -/
def initState (initial : List (List Int ⊕ Beam)) : List ElemState :=
  initial.map fun init =>
    match init with
    | .inl ids => ⟨[Beam.ofTokenIds ids], [], []⟩
    | .inr b => ⟨[b], [], []⟩

/-- `beam_search` (lines 26-245): validate, build the initial state, filter
once, run the round loop with `max_length.toNat` rounds of fuel (shown
sufficient below whenever the update hook preserves lengths), and return
the final outputs together with the intermediate snapshots.  A validation
failure is the Python `AssertionError`; `"fuel exhausted"` marks a run the
Python loop would not have finished within the modelled fuel. -/
def beamSearch {Cache Logits LogProbs : Type} (P : Params Cache Logits LogProbs)
    (initial : List (List Int ⊕ Beam)) :
    Except String (List (List Beam) × List (List (List Beam))) :=
  if validateArgs P initial then
    match searchLoop P P.maxLength.toNat
        (filterBeams P.stopFn P.scoreFn P.maxLength P.maxNewTokens P.beamWidth
          P.stopCondition (initState initial)).1
        (filterBeams P.stopFn P.scoreFn P.maxLength P.maxNewTokens P.beamWidth
          P.stopCondition (initState initial)).2.1
        (filterBeams P.stopFn P.scoreFn P.maxLength P.maxNewTokens P.beamWidth
          P.stopCondition (initState initial)).2.2 none [] with
    | some r => .ok r
    | none => .error "fuel exhausted"
  else .error "assertion failed"

/-! ### Helper lemmas -/

theorem mem_insertDesc {f : Beam → ℚ} {b x : Beam} :
    ∀ (l : List Beam), x ∈ insertDesc f b l ↔ x = b ∨ x ∈ l
  | [] => by simp [insertDesc]
  | y :: ys => by
    simp only [insertDesc]
    split
    · simp [mem_insertDesc ys]; tauto
    · simp

theorem mem_sortDesc {f : Beam → ℚ} {x : Beam} :
    ∀ (l : List Beam), x ∈ sortDesc f l ↔ x ∈ l
  | [] => by simp [sortDesc]
  | y :: ys => by
    simp only [sortDesc, mem_insertDesc, mem_sortDesc ys, List.mem_cons]

theorem pruneLoop_eq (updateFn : Beam → Option Beam) (beamWidth : Nat) :
    ∀ (l acc : List Beam), acc.length < beamWidth →
      pruneLoop updateFn beamWidth acc l =
        acc ++ (l.filterMap updateFn).take (beamWidth - acc.length)
  | [], acc, _ => by simp [pruneLoop]
  | c :: rest, acc, h => by
    simp only [pruneLoop]
    cases hu : updateFn c with
    | none => simp [List.filterMap_cons, hu, pruneLoop_eq updateFn beamWidth rest acc h]
    | some c' =>
      simp only [List.filterMap_cons, hu]
      split
      · next hge =>
        have : beamWidth = acc.length + 1 := by simp at hge; omega
        subst this
        simp [List.take_succ_cons]
      · next hlt =>
        have hlt' : (acc ++ [c']).length < beamWidth := by simp at hlt ⊢; omega
        rw [pruneLoop_eq updateFn beamWidth rest _ hlt']
        have : beamWidth - acc.length = (beamWidth - (acc ++ [c']).length) + 1 := by
          simp; omega
        simp [this, List.take_succ_cons]

theorem mem_of_mem_pruneLoop (updateFn : Beam → Option Beam) (beamWidth : Nat) :
    ∀ (l acc : List Beam) (x : Beam), x ∈ pruneLoop updateFn beamWidth acc l →
      x ∈ acc ∨ ∃ y ∈ l, updateFn y = some x
  | [], acc, x, h => .inl (by simpa [pruneLoop] using h)
  | c :: rest, acc, x, h => by
    cases hu : updateFn c with
    | none =>
      simp only [pruneLoop, hu] at h
      rcases mem_of_mem_pruneLoop updateFn beamWidth rest acc x h with h' | ⟨y, hy, hxy⟩
      · exact .inl h'
      · exact .inr ⟨y, by simp [hy], hxy⟩
    | some c' =>
      simp only [pruneLoop, hu] at h
      split at h
      · rcases List.mem_append.1 h with h' | h'
        · exact .inl h'
        · exact .inr ⟨c, by simp, by rw [List.mem_singleton.1 h']; exact hu⟩
      · rcases mem_of_mem_pruneLoop updateFn beamWidth rest _ x h with h' | ⟨y, hy, hxy⟩
        · rcases List.mem_append.1 h' with h'' | h''
          · exact .inl h''
          · exact .inr ⟨c, by simp, by rw [List.mem_singleton.1 h'']; exact hu⟩
        · exact .inr ⟨y, by simp [hy], hxy⟩

theorem mem_of_mem_modify {α : Type} (f : α → α) (n : Nat) (l : List α) (x : α)
    (h : x ∈ l.modify f n) : x ∈ l ∨ ∃ y ∈ l, x = f y := by
  rw [List.modify_eq_set_get? f n l] at h
  cases hg : l.get? n with
  | none => rw [hg] at h; exact .inl h
  | some a =>
    rw [hg] at h
    simp only [Option.map_eq_map, Option.map_some', Option.getD_some] at h
    rcases List.mem_or_eq_of_mem_set h with h' | h'
    · exact .inl h'
    · exact .inr ⟨a, List.get?_mem hg, h'⟩

theorem classifyList_spec (stopFn : Beam → Bool) (maxLength : Int) (maxNewTokens : Option Int) :
    ∀ (l : List Beam) {na nd nl : List Beam},
      classifyList stopFn maxLength maxNewTokens l = (na, nd, nl) →
      (∀ b ∈ na, b ∈ l ∧ stopFn b = false ∧ tooLong maxLength maxNewTokens b = false) ∧
      (∀ x ∈ nd, ∃ b ∈ l, stopFn b = true ∧ x = { b with stopReason := some "done" }) ∧
      (∀ x ∈ nl, ∃ b ∈ l, stopFn b = false ∧ tooLong maxLength maxNewTokens b = true ∧
        x = { b with stopReason := some "length" })
  | [], na, nd, nl, h => by
    simp only [classifyList, Prod.mk.injEq] at h
    obtain ⟨h1, h2, h3⟩ := h
    subst h1; subst h2; subst h3
    simp
  | b :: rest, na, nd, nl, h => by
    rcases hrec : classifyList stopFn maxLength maxNewTokens rest with ⟨na', nd', nl'⟩
    obtain ⟨ih1, ih2, ih3⟩ := classifyList_spec stopFn maxLength maxNewTokens rest hrec
    by_cases hs : stopFn b
    · simp only [classifyList, hrec, classifyOne, hs, if_true, Prod.mk.injEq] at h
      obtain ⟨h1, h2, h3⟩ := h
      subst h1; subst h2; subst h3
      refine ⟨fun x hx => ?_, fun x hx => ?_, fun x hx => ?_⟩
      · obtain ⟨hm, h'⟩ := ih1 x hx
        exact ⟨List.mem_cons_of_mem _ hm, h'⟩
      · rcases List.mem_cons.1 hx with h' | h'
        · exact ⟨b, List.mem_cons_self _ _, hs, h'⟩
        · obtain ⟨y, hy, h'⟩ := ih2 x h'
          exact ⟨y, List.mem_cons_of_mem _ hy, h'⟩
      · obtain ⟨y, hy, h'⟩ := ih3 x hx
        exact ⟨y, List.mem_cons_of_mem _ hy, h'⟩
    · by_cases ht : tooLong maxLength maxNewTokens b
      · simp only [classifyList, hrec, classifyOne, hs, ht, if_false, if_true,
          Bool.false_eq_true, Prod.mk.injEq] at h
        obtain ⟨h1, h2, h3⟩ := h
        subst h1; subst h2; subst h3
        refine ⟨fun x hx => ?_, fun x hx => ?_, fun x hx => ?_⟩
        · obtain ⟨hm, h'⟩ := ih1 x hx
          exact ⟨List.mem_cons_of_mem _ hm, h'⟩
        · obtain ⟨y, hy, h'⟩ := ih2 x hx
          exact ⟨y, List.mem_cons_of_mem _ hy, h'⟩
        · rcases List.mem_cons.1 hx with h' | h'
          · exact ⟨b, List.mem_cons_self _ _, by simpa using hs, ht, h'⟩
          · obtain ⟨y, hy, h'⟩ := ih3 x h'
            exact ⟨y, List.mem_cons_of_mem _ hy, h'⟩
      · simp only [classifyList, hrec, classifyOne, hs, ht, if_false,
          Bool.false_eq_true, Prod.mk.injEq] at h
        obtain ⟨h1, h2, h3⟩ := h
        subst h1; subst h2; subst h3
        refine ⟨fun x hx => ?_, fun x hx => ?_, fun x hx => ?_⟩
        · rcases List.mem_cons.1 hx with h' | h'
          · subst h'
            exact ⟨List.mem_cons_self _ _, by simpa using hs, by simpa using ht⟩
          · obtain ⟨hm, h'⟩ := ih1 x h'
            exact ⟨List.mem_cons_of_mem _ hm, h'⟩
        · obtain ⟨y, hy, h'⟩ := ih2 x hx
          exact ⟨y, List.mem_cons_of_mem _ hy, h'⟩
        · obtain ⟨y, hy, h'⟩ := ih3 x hx
          exact ⟨y, List.mem_cons_of_mem _ hy, h'⟩

theorem elementFilter_shape (stopFn : Beam → Bool) (scoreFn : Beam → Option Int → ℚ)
    (maxLength : Int) (maxNewTokens : Option Int) (beamWidth : Nat) (stopCondition : String)
    (st : ElemState) {na nd nl : List Beam}
    (hc : classifyList stopFn maxLength maxNewTokens st.alive = (na, nd, nl)) :
    elementFilter stopFn scoreFn maxLength maxNewTokens beamWidth stopCondition st =
      ⟨na, st.finished ++ nd, st.tooLongList ++ nl⟩ ∨
    elementFilter stopFn scoreFn maxLength maxNewTokens beamWidth stopCondition st =
      ⟨[], st.finished ++ nd, st.tooLongList ++ nl⟩ := by
  simp only [elementFilter, hc]
  split_ifs <;> simp

/-! ### Claim theorems -/

/-- C10: in beam classification the stop predicate takes precedence over the
length check — a beam for which both `stop_fn` and `too_long` hold is
classified as finished with stop reason `"done"`, never as too long. -/
theorem c10_stop_takes_precedence (stopFn : Beam → Bool) (maxLength : Int)
    (maxNewTokens : Option Int) (b : Beam) (hstop : stopFn b = true)
    (hlong : tooLong maxLength maxNewTokens b = true) :
    classifyOne stopFn maxLength maxNewTokens b =
      .finished { b with stopReason := some "done" } := by
  simp [classifyOne, hstop]

/-- Witness for C10 at a concrete beam that both stops and is too long. -/
theorem c10_witness :
    ((fun _ => true) : Beam → Bool) ⟨[5], 1, [], none, none⟩ = true ∧
    tooLong 1 none ⟨[5], 1, [], none, none⟩ = true ∧
    classifyOne (fun _ => true) 1 none ⟨[5], 1, [], none, none⟩ =
      .finished ⟨[5], 1, [], none, some "done"⟩ :=
  ⟨rfl, by decide,
    c10_stop_takes_precedence (fun _ => true) 1 none ⟨[5], 1, [], none, none⟩ rfl (by decide)⟩

/-- C1: in the filter step, a batch element that still has alive beams after
classification and fewer than `beam_width` finished beams keeps all of its
alive beams (no stop condition is applied); and under the `max_outputs` stop
condition the alive list is cleared in any round in which the finished list
holds at least `beam_width` beams. -/
theorem c1_keep_alive_or_clear_max_outputs (stopFn : Beam → Bool)
    (scoreFn : Beam → Option Int → ℚ) (maxLength : Int) (maxNewTokens : Option Int)
    (beamWidth : Nat) (stopCondition : String) (st : ElemState) (na nd nl : List Beam)
    (hc : classifyList stopFn maxLength maxNewTokens st.alive = (na, nd, nl))
    (hna : na ≠ []) :
    ((st.finished ++ nd).length < beamWidth →
      elementFilter stopFn scoreFn maxLength maxNewTokens beamWidth stopCondition st =
        ⟨na, st.finished ++ nd, st.tooLongList ++ nl⟩) ∧
    (stopCondition = "max_outputs" → beamWidth ≤ (st.finished ++ nd).length →
      (elementFilter stopFn scoreFn maxLength maxNewTokens beamWidth stopCondition st).alive
        = []) := by
  constructor
  · intro hlt
    simp only [elementFilter, hc]
    rw [if_neg hna, if_pos hlt]
  · intro hsc hge
    simp only [elementFilter, hc]
    rw [if_neg hna, if_neg (by omega), if_pos hsc]

/-- Witness for C1: one element, one alive beam, no finished beams yet with
`beam_width` 1 (kept alive); and the same state under `max_outputs` with an
already-full finished list (cleared). -/
theorem c1_witness :
    classifyList (fun _ => false) 3 none [⟨[5], 1, [], none, none⟩] =
      ([⟨[5], 1, [], none, none⟩], [], []) ∧
    elementFilter (fun _ => false) (fun _ _ => 0) 3 none 1 "estimated_score"
        ⟨[⟨[5], 1, [], none, none⟩], [], []⟩ =
      ⟨[⟨[5], 1, [], none, none⟩], [], []⟩ ∧
    (elementFilter (fun _ => false) (fun _ _ => 0) 3 none 1 "max_outputs"
        ⟨[⟨[5], 1, [], none, none⟩], [⟨[5, 9], 1, [], none, some "done"⟩], []⟩).alive = [] := by
  refine ⟨by decide, ?_, ?_⟩
  · have h := (c1_keep_alive_or_clear_max_outputs (fun _ => false) (fun _ _ => 0) 3 none 1
      "estimated_score" ⟨[⟨[5], 1, [], none, none⟩], [], []⟩ [⟨[5], 1, [], none, none⟩] [] []
      (by decide) (by decide)).1 (by decide)
    simpa using h
  · have h := (c1_keep_alive_or_clear_max_outputs (fun _ => false) (fun _ _ => 0) 3 none 1
      "max_outputs" ⟨[⟨[5], 1, [], none, none⟩], [⟨[5, 9], 1, [], none, some "done"⟩], []⟩
      [⟨[5], 1, [], none, none⟩] [] []
      (by decide) (by decide)).2 rfl (by decide)
    simpa using h

/-- C3: under the `max_score` stop condition, when a batch element has at
least `beam_width` finished beams and at least one alive beam after
classification (all sharing the seed's `initial_length`, with nonempty token
lists, and `max_new_tokens` not zero), every alive beam is scored at the
hypothetical decoded length `min(max_length - initial_length,
max_new_tokens)` (just `max_length - initial_length` when unset), and the
alive beams are abandoned exactly when the worst finished score is at least
the maximum of these projected scores. -/
theorem c3_max_score_abandons_iff (stopFn : Beam → Bool) (scoreFn : Beam → Option Int → ℚ)
    (maxLength : Int) (maxNewTokens : Option Int) (beamWidth : Nat) (st : ElemState)
    (na nd nl : List Beam) (i0 : Nat)
    (hc : classifyList stopFn maxLength maxNewTokens st.alive = (na, nd, nl))
    (hna : na ≠ [])
    (hfin : beamWidth ≤ (st.finished ++ nd).length)
    (hil : ∀ b ∈ na, b.initialLength = i0)
    (hne : ∀ b ∈ na, b.tokenIds ≠ [])
    (hmnt : ∀ m, maxNewTokens = some m → m ≠ 0) :
    ((elementFilter stopFn scoreFn maxLength maxNewTokens beamWidth "max_score" st).alive = []
      ↔ foldMax (na.map (scoreFn · (some (match maxNewTokens with
            | none => maxLength - (i0 : Int)
            | some m => min (maxLength - (i0 : Int)) m)))) ≤
          foldMin ((st.finished ++ nd).map (scoreFn · none))) := by
  cases na with
  | nil => exact absurd rfl hna
  | cons b0 na' =>
    have hfilter : (b0 :: na').filter (fun b => b.tokenIds.length ≠ 0) = b0 :: na' := by
      rw [List.filter_eq_self]
      intro b hb
      have := hne b hb
      simp [List.length_eq_zero, this]
    have hb0 : b0.initialLength = i0 := hil b0 (List.mem_cons_self _ _)
    simp only [elementFilter, hc]
    rw [if_neg hna, if_neg (by omega)]
    rw [if_neg (by decide : ¬("max_score" = "max_outputs"))]
    simp only [if_neg (by decide : ¬("max_score" = "estimated_score"))]
    simp only [List.headI_cons, hb0, hfilter]
    cases maxNewTokens with
    | none =>
      split_ifs with hcond
      · simpa using hcond
      · simpa using hcond
    | some m =>
      have hm : m ≠ 0 := hmnt m rfl
      simp only [if_neg hm]
      split_ifs with hcond
      · simpa using hcond
      · simpa using hcond

/-- Witness for C3: one alive beam of projected score 3 against one finished
beam of score 5, abandoned accordingly. -/
theorem c3_witness :
    classifyList (fun _ => false) 4 none [⟨[5, 7], 1, [], none, none⟩] =
      ([⟨[5, 7], 1, [], none, none⟩], [], []) ∧
    (elementFilter (fun _ => false)
        (fun _ o => match o with | some L => (L : ℚ) | none => 5) 4 none 1 "max_score"
        ⟨[⟨[5, 7], 1, [], none, none⟩], [⟨[5, 9], 1, [], none, some "done"⟩], []⟩).alive = [] ∧
    foldMax [((3 : Int) : ℚ)] ≤ foldMin [(5 : ℚ)] := by
  refine ⟨by decide, ?_, by decide⟩
  have h := (c3_max_score_abandons_iff (fun _ => false)
    (fun _ o => match o with | some L => (L : ℚ) | none => 5) 4 none 1
    ⟨[⟨[5, 7], 1, [], none, none⟩], [⟨[5, 9], 1, [], none, some "done"⟩], []⟩
    [⟨[5, 7], 1, [], none, none⟩] [] [] 1
    (by decide) (by decide) (by decide) (by decide) (by decide) (by decide)).2
  exact h (by decide)

/-- C6: the pruning step for a batch element keeps exactly the updated forms
of the first `beam_width` candidates, in descending score order, that the
update hook does not reject: the code's accept-until-full loop equals
sorting, filtering through the update hook, and taking `beam_width`. -/
theorem c6_prune_keeps_top_survivors {Cache Logits LogProbs : Type}
    (P : Params Cache Logits LogProbs) (hbw : 1 ≤ P.beamWidth) (candidates : List Beam) :
    pruneElement P candidates =
      ((sortDesc (P.scoreFn · none) candidates).filterMap P.updateFn).take P.beamWidth := by
  have h := pruneLoop_eq P.updateFn P.beamWidth (sortDesc (P.scoreFn · none) candidates) []
    (by simpa using hbw)
  simpa [pruneElement] using h

def c6Params : Params Unit Unit Unit where
  padTokenId := 0
  maxLength := 10
  stopFn := fun _ => false
  beamWidth := 1
  sampleFn := fun _ _ => []
  updateFn := fun b => if b.tokenIds = [2] then none else some b
  scoreFn := fun b _ => ((b.tokenIds.headI : Int) : ℚ)
  logitFns := []
  cacheFn := fun _ _ _ => ()
  decodeFn := fun _ _ => ((), ())
  logSoftmax := fun _ => ()
  getLP := fun _ _ _ => 0
  stopCondition := "estimated_score"
  maxNewTokens := none
  yieldIntermediate := false
  returnUnfinished := false

/-- Witness for C6: two candidates; the higher-scoring one is rejected by
the update hook, so the survivor is kept. -/
theorem c6_witness :
    1 ≤ c6Params.beamWidth ∧
    pruneElement c6Params [⟨[1], 1, [], none, none⟩, ⟨[2], 1, [], none, none⟩] =
      [⟨[1], 1, [], none, none⟩] := by
  refine ⟨by decide, ?_⟩
  rw [c6_prune_keeps_top_survivors c6Params (by decide)
    [⟨[1], 1, [], none, none⟩, ⟨[2], 1, [], none, none⟩]]
  decide

/-- Every beam of every row of `expandRound` is a child produced by
`rowChildren` at the row index of its parent in the flattened beam list. -/
theorem expandRound_rows_spec {Cache Logits LogProbs : Type}
    (P : Params Cache Logits LogProbs) (batchSize : Nat) (logits : Logits)
    (beams : List Beam) (indices : List Nat) (Pred : Beam → Prop)
    (hP : ∀ i beam, beams[i]? = some beam →
      ∀ child ∈ rowChildren P (P.logSoftmax logits)
        (P.sampleFn (P.logitFns.foldl (fun l fn => fn l beams) logits) P.beamWidth) i beam,
          Pred child) :
    ∀ row ∈ expandRound P batchSize logits beams indices, ∀ child ∈ row, Pred child := by
  simp only [expandRound]
  have main : ∀ (l : List (Nat × Beam × Nat)) (init : List (List Beam)),
      (∀ row ∈ init, ∀ b ∈ row, Pred b) →
      (∀ x ∈ l, ∀ b ∈ rowChildren P (P.logSoftmax logits)
        (P.sampleFn (P.logitFns.foldl (fun l fn => fn l beams) logits) P.beamWidth)
          x.1 x.2.1, Pred b) →
      ∀ row ∈ l.foldl (fun bc x =>
          bc.modify (· ++ rowChildren P (P.logSoftmax logits)
            (P.sampleFn (P.logitFns.foldl (fun l fn => fn l beams) logits) P.beamWidth)
            x.1 x.2.1) x.2.2) init,
        ∀ b ∈ row, Pred b := by
    intro l
    induction l with
    | nil => intro init hinit _ row hrow b hb; exact hinit row hrow b hb
    | cons x xs ih =>
      intro init hinit hl row hrow b hb
      refine ih _ ?_ (fun y hy => hl y (List.mem_cons_of_mem _ hy)) row hrow b hb
      intro row' hrow' b' hb'
      rcases mem_of_mem_modify _ _ _ _ hrow' with h' | ⟨y, hy, h'⟩
      · exact hinit row' h' b' hb'
      · subst h'
        rcases List.mem_append.1 hb' with h'' | h''
        · exact hinit y hy b' h''
        · exact hl x (List.mem_cons_self _ _) b' h''
  intro row hrow b hb
  refine main _ _ (by simp) ?_ row hrow b hb
  intro x hx child hchild
  have hzip : (beams.zip indices)[x.1]? = some x.2 := List.mem_enum_iff_getElem?.1 hx
  have hbeam : beams[x.1]? = some x.2.1 := by
    rcases x with ⟨i, beam, bidx⟩
    exact (List.getElem?_zip_eq_some.1 hzip).1
  exact hP x.1 x.2.1 hbeam child hchild

/-- C4: when a cache handle exists and every alive beam has a cache slot,
the cache-reorder collaborator is invoked, before the decode callback, with
each beam's stored slot and its pre-step length `len(beam) - 1`, and its
result is the cache the decode callback receives, the decode input being one
token (the last) per beam; every child produced by expansion stores as its
slot the flattened index its parent occupied in this round's decode call;
and when a cache handle exists but some alive beam has no slot, the cache
passed to the decode callback is cleared (`none`). -/
theorem c4_cache_reorder {Cache Logits LogProbs : Type}
    (P : Params Cache Logits LogProbs) (beams : List Beam) (c : Cache)
    (hall : ∀ b ∈ beams, b.cache.isSome) :
    (prepareInputs P beams (some c)).2 =
      some (P.cacheFn c (beams.map fun b => b.cache.getD 0)
        (beams.map fun b => (b.length : Int) - 1)) ∧
    (prepareInputs P beams (some c)).1.inputIds = (beams.map fun b => [b.lastTokenId]) ∧
    (∀ (batchSize : Nat) (logits : Logits) (indices : List Nat)
        (row : List Beam) (child : Beam),
      row ∈ expandRound P batchSize logits beams indices → child ∈ row →
      ∃ i b, beams[i]? = some b ∧ child.cache = some i ∧
        child.tokenIds.length = b.tokenIds.length + 1) ∧
    (∀ (beams' : List Beam), (∃ b ∈ beams', b.cache = none) →
      (prepareInputs P beams' (some c)).2 = none) := by
  have hallb : beams.all (fun b => b.cache.isSome) = true := List.all_eq_true.2 hall
  refine ⟨?_, ?_, ?_, ?_⟩
  · simp [prepareInputs, hallb]
  · simp [prepareInputs, hallb]
  · intro batchSize logits indices row child hrow hchild
    refine expandRound_rows_spec P batchSize logits beams indices
      (fun child => ∃ i b, beams[i]? = some b ∧ child.cache = some i ∧
        child.tokenIds.length = b.tokenIds.length + 1) ?_ row hrow child hchild
    intro i beam hbeam child' hchild'
    simp only [rowChildren, List.mem_map] at hchild'
    obtain ⟨p, _, hp⟩ := hchild'
    refine ⟨i, beam, hbeam, ?_, ?_⟩
    · rw [← hp]; rfl
    · rw [← hp]; simp [Beam.add, Beam.clone]
  · intro beams' hnone
    obtain ⟨b, hb, hbc⟩ := hnone
    have : beams'.all (fun b => b.cache.isSome) = false := by
      rw [List.all_eq_false]
      exact ⟨b, hb, by simp [hbc]⟩
    simp [prepareInputs, this]

def c4Params : Params Nat Unit Unit where
  padTokenId := 0
  maxLength := 10
  stopFn := fun _ => false
  beamWidth := 1
  sampleFn := fun _ _ => [[(9, (0 : WithBot ℚ))]]
  updateFn := some
  scoreFn := fun _ _ => 0
  logitFns := []
  cacheFn := fun c mask lengths => c + mask.length + lengths.length
  decodeFn := fun _ _ => ((), 0)
  logSoftmax := fun _ => ()
  getLP := fun _ _ _ => 0
  stopCondition := "estimated_score"
  maxNewTokens := none
  yieldIntermediate := false
  returnUnfinished := false

/-- Witness for C4 at one cached beam: the reordered cache reaches the
decode callback and the single child records slot `0`. -/
theorem c4_witness :
    (∀ b ∈ [(⟨[5, 7], 1, [], some 0, none⟩ : Beam)], b.cache.isSome) ∧
    (prepareInputs c4Params [⟨[5, 7], 1, [], some 0, none⟩] (some 3)).2 = some 5 ∧
    (∃ i b, [(⟨[5, 7], 1, [], some 0, none⟩ : Beam)][i]? = some b ∧
      (⟨[5, 7, 9], 1, [0], some 0, none⟩ : Beam).cache = some i ∧
      (⟨[5, 7, 9], 1, [0], some 0, none⟩ : Beam).tokenIds.length = b.tokenIds.length + 1) := by
  have h := c4_cache_reorder c4Params [⟨[5, 7], 1, [], some 0, none⟩] 3 (by decide)
  refine ⟨by decide, ?_, ?_⟩
  · rw [h.1]; decide
  · refine h.2.2.1 1 () [0] [⟨[5, 7, 9], 1, [0], some 0, none⟩]
      ⟨[5, 7, 9], 1, [0], some 0, none⟩ ?_ (by decide)
    decide

/-- Comparison definition for the amended C5, following the amended wording:
the logits used for sampling and the logits used for log-probabilities are
independent inputs (`sampleSrc` and `lpSrc`). -/
def expandRoundSplit {Cache Logits LogProbs : Type} (P : Params Cache Logits LogProbs)
    (batchSize : Nat) (sampleSrc lpSrc : Logits) (beams : List Beam) (indices : List Nat) :
    List (List Beam) :=
  let lp := P.logSoftmax lpSrc
  let sampled := P.sampleFn sampleSrc P.beamWidth
  (beams.zip indices).enum.foldl
    (fun bc x =>
      bc.modify (· ++ rowChildren P lp sampled x.1 x.2.1) x.2.2)
    (List.replicate batchSize [])

/-- Comparison definition for C5 as stated by the spec: apply the logit
filters first, then convert the (filtered) logits to log-probabilities, so
that both the sampled ids and the appended log-probabilities come from the
filtered logits. -/
def expandRoundSpecOrder {Cache Logits LogProbs : Type} (P : Params Cache Logits LogProbs)
    (batchSize : Nat) (logits : Logits) (beams : List Beam) (indices : List Nat) :
    List (List Beam) :=
  let filtered := P.logitFns.foldl (fun l fn => fn l beams) logits
  expandRoundSplit P batchSize filtered filtered beams indices

def c5Params : Params Unit ℚ ℚ where
  padTokenId := 0
  maxLength := 10
  stopFn := fun _ => false
  beamWidth := 1
  sampleFn := fun _ _ => [[(3, (0 : WithBot ℚ))]]
  updateFn := some
  scoreFn := fun _ _ => 0
  logitFns := [fun _ _ => 1]
  cacheFn := fun _ _ _ => ()
  decodeFn := fun _ _ => (0, ())
  logSoftmax := fun l => l
  getLP := fun p _ _ => p
  stopCondition := "estimated_score"
  maxNewTokens := none
  yieldIntermediate := false
  returnUnfinished := false

/-- Counterexample to C5 as stated: with a logit filter that shifts the
logits, the log-probability appended to the child differs from the one the
spec's stated order (filters before conversion) would produce — the code
converts the raw decode logits before applying the filters. -/
theorem c5_counterexample :
    expandRound c5Params 1 0 [⟨[5], 1, [], none, none⟩] [0] ≠
      expandRoundSpecOrder c5Params 1 0 [⟨[5], 1, [], none, none⟩] [0] := by
  decide

/-- C5 (amended): in each round the log-probabilities are computed from the
raw decode logits before the filters run; the filters, applied in sequence,
affect only the input of the sampling strategy, so each child's sampled
token comes from the filtered logits while its appended log-probability
comes from the unfiltered log-probabilities. -/
theorem c5_filters_affect_sampling_only {Cache Logits LogProbs : Type}
    (P : Params Cache Logits LogProbs) (batchSize : Nat) (logits : Logits)
    (beams : List Beam) (indices : List Nat) :
    expandRound P batchSize logits beams indices =
      expandRoundSplit P batchSize
        (P.logitFns.foldl (fun l fn => fn l beams) logits) logits beams indices ∧
    (∀ row ∈ expandRound P batchSize logits beams indices, ∀ child ∈ row,
      ∃ i p, p ∈ ((P.sampleFn (P.logitFns.foldl (fun l fn => fn l beams) logits)
          P.beamWidth).getD i []) ∧ p.2 ≠ ⊥ ∧
        child.tokenIds.getLast? = some p.1 ∧
        child.logProbs.getLast? = some (P.getLP (P.logSoftmax logits) i p.1)) := by
  refine ⟨rfl, ?_⟩
  refine expandRound_rows_spec P batchSize logits beams indices
    (fun child => ∃ i p, p ∈ ((P.sampleFn (P.logitFns.foldl (fun l fn => fn l beams) logits)
        P.beamWidth).getD i []) ∧ p.2 ≠ ⊥ ∧
      child.tokenIds.getLast? = some p.1 ∧
      child.logProbs.getLast? = some (P.getLP (P.logSoftmax logits) i p.1)) ?_
  intro i beam _ child hchild
  simp only [rowChildren, List.mem_map, List.mem_filter] at hchild
  obtain ⟨p, ⟨hmem, hvalid⟩, hp⟩ := hchild
  refine ⟨i, p, hmem, by simpa using hvalid, ?_, ?_⟩
  · rw [← hp]; simp [Beam.add, Beam.clone]
  · rw [← hp]; simp [Beam.add, Beam.clone]

def c9Params : Params Unit Unit Unit where
  padTokenId := 0
  maxLength := 0
  stopFn := fun _ => false
  beamWidth := 2
  sampleFn := fun _ _ => [[(7, (0 : WithBot ℚ))], [(7, (0 : WithBot ℚ))]]
  updateFn := some
  scoreFn := fun _ _ => 0
  logitFns := []
  cacheFn := fun _ _ _ => ()
  decodeFn := fun _ _ => ((), ())
  logSoftmax := fun _ => ()
  getLP := fun _ _ _ => 0
  stopCondition := "estimated_score"
  maxNewTokens := none
  yieldIntermediate := false
  returnUnfinished := false

/-- Counterexample to C9 as stated: a configuration with `max_length = 0`
(and everything else valid) is not rejected — the run completes normally,
because the source never asserts anything about `max_length`. -/
theorem c9_counterexample :
    c9Params.maxLength = 0 ∧
    beamSearch c9Params [.inl [5]] = .ok ([[]], []) := by
  exact ⟨rfl, rfl⟩

/-- C9 (amended): `beam_search` validates, before any decode-callback
invocation and with no partial work, that `max_new_tokens` is `None` or
positive, the stop condition is one of the three known values,
`beam_width ≥ 1`, and every initial token sequence or beam is nonempty;
`max_length` is not validated. -/
theorem c9_validates_without_max_length {Cache Logits LogProbs : Type}
    (P : Params Cache Logits LogProbs) (initial : List (List Int ⊕ Beam)) :
    (validateArgs P initial = true ↔
      ((∀ m, P.maxNewTokens = some m → 0 < m) ∧
       (P.stopCondition = "max_score" ∨ P.stopCondition = "estimated_score" ∨
         P.stopCondition = "max_outputs") ∧
       1 ≤ P.beamWidth ∧
       (∀ init ∈ initial, match init with
         | .inl ids => ids ≠ []
         | .inr b => b.tokenIds ≠ []))) ∧
    (validateArgs P initial = false →
      ∀ (d : DecodeInput → Option Cache → Logits × Cache),
        beamSearch { P with decodeFn := d } initial = .error "assertion failed") := by
  constructor
  · have hinit_iff : (initial.all fun init =>
        match init with
        | .inl ids => ids.length ≠ 0
        | .inr b => b.length ≠ 0) = true ↔
        (∀ init ∈ initial, match init with
          | .inl ids => ids ≠ []
          | .inr b => b.tokenIds ≠ []) := by
      rw [List.all_eq_true]
      constructor
      · intro h init hi
        have := h init hi
        rcases init with ids | b
        · simpa [List.length_eq_zero] using this
        · simpa [Beam.length, List.length_eq_zero] using this
      · intro h init hi
        have := h init hi
        rcases init with ids | b
        · simpa [List.length_eq_zero] using this
        · simpa [Beam.length, List.length_eq_zero] using this
    cases hmn : P.maxNewTokens with
    | none =>
      simp only [validateArgs, hmn, Bool.and_eq_true, Bool.or_eq_true, decide_eq_true_eq,
        hinit_iff]
      constructor
      · rintro ⟨⟨⟨-, hs⟩, hb⟩, hinit⟩
        exact ⟨by simp, by tauto, hb, hinit⟩
      · rintro ⟨-, hs, hb, hinit⟩
        exact ⟨⟨⟨trivial, by tauto⟩, hb⟩, hinit⟩
    | some m =>
      simp only [validateArgs, hmn, Bool.and_eq_true, Bool.or_eq_true, decide_eq_true_eq,
        hinit_iff]
      constructor
      · rintro ⟨⟨⟨hm, hs⟩, hb⟩, hinit⟩
        exact ⟨fun m' hm' => (Option.some_inj.1 hm') ▸ hm, by tauto, hb, hinit⟩
      · rintro ⟨hm, hs, hb, hinit⟩
        exact ⟨⟨⟨hm m rfl, by tauto⟩, hb⟩, hinit⟩
  · intro hfalse d
    have heq : validateArgs { P with decodeFn := d } initial = validateArgs P initial := rfl
    simp [beamSearch, heq, hfalse]

def c9BadParams : Params Unit Unit Unit :=
  { c9Params with maxLength := 8, beamWidth := 0 }

/-- Witness for C9 (amended) at a configuration with `beam_width = 0`:
validation fails and the run is rejected with no decode work. -/
theorem c9_witness :
    validateArgs c9BadParams [Sum.inl [5]] = false ∧
    beamSearch c9BadParams [Sum.inl [5]] = .error "assertion failed" := by
  refine ⟨rfl, ?_⟩
  exact (c9_validates_without_max_length c9BadParams [Sum.inl [5]]).2 rfl
    c9BadParams.decodeFn

/-! ### Length invariants of the round loop -/

/-- A beam within the configured caps: at most `max_length` tokens in total
and, when `max_new_tokens` is set, at most that many decoded tokens. -/
def LenOK (maxLength : Int) (maxNewTokens : Option Int) (b : Beam) : Prop :=
  (b.length : Int) ≤ maxLength ∧ ∀ m, maxNewTokens = some m → b.decodedLength ≤ m

/-- All three lists of a batch element are within the caps. -/
def ElemOK (maxLength : Int) (maxNewTokens : Option Int) (st : ElemState) : Prop :=
  (∀ b ∈ st.alive, LenOK maxLength maxNewTokens b) ∧
  (∀ b ∈ st.finished, LenOK maxLength maxNewTokens b) ∧
  (∀ b ∈ st.tooLongList, LenOK maxLength maxNewTokens b)

/-- Every batch element is within the caps. -/
def StateOK (maxLength : Int) (maxNewTokens : Option Int) (state : List ElemState) : Prop :=
  ∀ st ∈ state, ElemOK maxLength maxNewTokens st

/-- The update hook preserves the token count and the seed length of the
candidate it returns. -/
def UpdatePreserves (updateFn : Beam → Option Beam) : Prop :=
  ∀ b b', updateFn b = some b' →
    b'.tokenIds.length = b.tokenIds.length ∧ b'.initialLength = b.initialLength

theorem lenOK_set_reason {maxLength : Int} {maxNewTokens : Option Int} {b : Beam}
    (h : LenOK maxLength maxNewTokens b) (r : Option String) :
    LenOK maxLength maxNewTokens { b with stopReason := r } := h

theorem elementFilter_alive_sub (stopFn : Beam → Bool) (scoreFn : Beam → Option Int → ℚ)
    (maxLength : Int) (maxNewTokens : Option Int) (beamWidth : Nat)
    (stopCondition : String) (st : ElemState) (b : Beam)
    (hb : b ∈ (elementFilter stopFn scoreFn maxLength maxNewTokens beamWidth
      stopCondition st).alive) :
    b ∈ st.alive ∧ stopFn b = false ∧ tooLong maxLength maxNewTokens b = false := by
  rcases hc : classifyList stopFn maxLength maxNewTokens st.alive with ⟨na, nd, nl⟩
  obtain ⟨h1, _, _⟩ := classifyList_spec stopFn maxLength maxNewTokens st.alive hc
  rcases elementFilter_shape stopFn scoreFn maxLength maxNewTokens beamWidth stopCondition
      st hc with h | h
  · rw [h] at hb
    exact h1 b hb
  · rw [h] at hb
    exact absurd hb (List.not_mem_nil b)

theorem elementFilter_preserves_ok (stopFn : Beam → Bool) (scoreFn : Beam → Option Int → ℚ)
    (maxLength : Int) (maxNewTokens : Option Int) (beamWidth : Nat)
    (stopCondition : String) (st : ElemState)
    (hst : ElemOK maxLength maxNewTokens st) :
    ElemOK maxLength maxNewTokens
      (elementFilter stopFn scoreFn maxLength maxNewTokens beamWidth stopCondition st) := by
  obtain ⟨ha, hf, ht⟩ := hst
  rcases hc : classifyList stopFn maxLength maxNewTokens st.alive with ⟨na, nd, nl⟩
  obtain ⟨h1, h2, h3⟩ := classifyList_spec stopFn maxLength maxNewTokens st.alive hc
  have hfin : ∀ b ∈ st.finished ++ nd, LenOK maxLength maxNewTokens b := by
    intro b hb
    rcases List.mem_append.1 hb with h' | h'
    · exact hf b h'
    · obtain ⟨y, hy, _, hbe⟩ := h2 b h'
      exact hbe ▸ lenOK_set_reason (ha y hy) _
  have htl : ∀ b ∈ st.tooLongList ++ nl, LenOK maxLength maxNewTokens b := by
    intro b hb
    rcases List.mem_append.1 hb with h' | h'
    · exact ht b h'
    · obtain ⟨y, hy, _, _, hbe⟩ := h3 b h'
      exact hbe ▸ lenOK_set_reason (ha y hy) _
  rcases elementFilter_shape stopFn scoreFn maxLength maxNewTokens beamWidth stopCondition
      st hc with h | h <;> rw [h]
  · exact ⟨fun b hb => ha b (h1 b hb).1, hfin, htl⟩
  · exact ⟨fun b hb => absurd hb (List.not_mem_nil b), hfin, htl⟩

theorem mem_filterBeams_beams (stopFn : Beam → Bool) (scoreFn : Beam → Option Int → ℚ)
    (maxLength : Int) (maxNewTokens : Option Int) (beamWidth : Nat)
    (stopCondition : String) (state : List ElemState) (b : Beam)
    (hb : b ∈ (filterBeams stopFn scoreFn maxLength maxNewTokens beamWidth
      stopCondition state).2.1) :
    ∃ st ∈ state, b ∈ (elementFilter stopFn scoreFn maxLength maxNewTokens beamWidth
      stopCondition st).alive := by
  simp only [filterBeams] at hb
  obtain ⟨l, hl, hbl⟩ := List.mem_flatten.1 hb
  obtain ⟨st', hst', hl'⟩ := List.mem_map.1 hl
  obtain ⟨st, hst, hst'eq⟩ := List.mem_map.1 hst'
  exact ⟨st, hst, by rw [hst'eq, hl']; exact hbl⟩

theorem filterBeams_state_ok (stopFn : Beam → Bool) (scoreFn : Beam → Option Int → ℚ)
    (maxLength : Int) (maxNewTokens : Option Int) (beamWidth : Nat)
    (stopCondition : String) (state : List ElemState)
    (hstate : StateOK maxLength maxNewTokens state) :
    StateOK maxLength maxNewTokens
      (filterBeams stopFn scoreFn maxLength maxNewTokens beamWidth stopCondition state).1 := by
  intro st' hst'
  simp only [filterBeams] at hst'
  obtain ⟨st, hst, h⟩ := List.mem_map.1 hst'
  exact h ▸ elementFilter_preserves_ok stopFn scoreFn maxLength maxNewTokens beamWidth
    stopCondition st (hstate st hst)

theorem getOutputsElem_ok (scoreFn : Beam → Option Int → ℚ) (beamWidth : Nat)
    (returnUnfinished : Bool) (maxLength : Int) (maxNewTokens : Option Int)
    (st : ElemState) (hst : ElemOK maxLength maxNewTokens st) :
    ElemOK maxLength maxNewTokens (getOutputsElem scoreFn beamWidth returnUnfinished st).2 ∧
    ∀ b ∈ (getOutputsElem scoreFn beamWidth returnUnfinished st).1,
      LenOK maxLength maxNewTokens b := by
  obtain ⟨ha, hf, ht⟩ := hst
  by_cases hif : returnUnfinished = true ∧ st.finished.length < beamWidth
  · have hfin : ∀ b ∈ st.finished ++
        (sortDesc (scoreFn · none) st.tooLongList).take (beamWidth - st.finished.length),
        LenOK maxLength maxNewTokens b := by
      intro b hb
      rcases List.mem_append.1 hb with h' | h'
      · exact hf b h'
      · exact ht b ((mem_sortDesc _).1 (List.mem_of_mem_take h'))
    constructor
    · simp only [getOutputsElem, if_pos hif]
      exact ⟨ha, hfin, ht⟩
    · simp only [getOutputsElem, if_pos hif]
      intro b hb
      exact hfin b ((mem_sortDesc _).1 (List.mem_of_mem_take hb))
  · constructor
    · simp only [getOutputsElem, if_neg hif]
      exact ⟨ha, hf, ht⟩
    · simp only [getOutputsElem, if_neg hif]
      intro b hb
      exact hf b ((mem_sortDesc _).1 (List.mem_of_mem_take hb))

theorem getOutputs_ok (scoreFn : Beam → Option Int → ℚ) (beamWidth : Nat)
    (returnUnfinished : Bool) (maxLength : Int) (maxNewTokens : Option Int)
    (state : List ElemState) (hstate : StateOK maxLength maxNewTokens state) :
    StateOK maxLength maxNewTokens
      (getOutputs scoreFn beamWidth returnUnfinished state).2 ∧
    ∀ o ∈ (getOutputs scoreFn beamWidth returnUnfinished state).1, ∀ b ∈ o,
      LenOK maxLength maxNewTokens b := by
  constructor
  · intro st' hst'
    simp only [getOutputs, List.mem_map] at hst'
    obtain ⟨pair, hpair, hpo⟩ := hst'
    obtain ⟨st, hst, hpe⟩ := hpair
    subst hpe
    exact hpo ▸ (getOutputsElem_ok scoreFn beamWidth returnUnfinished maxLength maxNewTokens
      st (hstate st hst)).1
  · intro o ho b hb
    simp only [getOutputs, List.mem_map] at ho
    obtain ⟨pair, hpair, hpo⟩ := ho
    obtain ⟨st, hst, hpe⟩ := hpair
    subst hpe
    exact (getOutputsElem_ok scoreFn beamWidth returnUnfinished maxLength maxNewTokens
      st (hstate st hst)).2 b (hpo ▸ hb)

theorem lt_of_tooLong_false {ml : Int} {mnt : Option Int} {b : Beam}
    (h : tooLong ml mnt b = false) : (b.length : Int) < ml := by
  unfold tooLong at h
  split at h
  · simp at h
  · omega

theorem decoded_lt_of_tooLong_false {ml m : Int} {b : Beam}
    (h : tooLong ml (some m) b = false) : b.decodedLength < m := by
  unfold tooLong at h
  split at h
  · simp at h
  · simpa using h

theorem expandRound_child_provenance {Cache Logits LogProbs : Type}
    (P : Params Cache Logits LogProbs) (batchSize : Nat) (logits : Logits)
    (beams : List Beam) (indices : List Nat) :
    ∀ row ∈ expandRound P batchSize logits beams indices, ∀ c ∈ row,
      ∃ parent ∈ beams, c.tokenIds.length = parent.tokenIds.length + 1 ∧
        c.initialLength = parent.initialLength := by
  refine expandRound_rows_spec P batchSize logits beams indices
    (fun c => ∃ parent ∈ beams, c.tokenIds.length = parent.tokenIds.length + 1 ∧
      c.initialLength = parent.initialLength) ?_
  intro i beam hbeam child hchild
  simp only [rowChildren, List.mem_map] at hchild
  obtain ⟨p, _, hp⟩ := hchild
  refine ⟨beam, List.getElem?_mem hbeam, ?_, ?_⟩
  · rw [← hp]; simp [Beam.add, Beam.clone]
  · rw [← hp]; rfl

theorem pruneElement_mem {Cache Logits LogProbs : Type}
    (P : Params Cache Logits LogProbs) (hupd : UpdatePreserves P.updateFn)
    (cands : List Beam) (x : Beam) (hx : x ∈ pruneElement P cands) :
    ∃ y ∈ cands, x.tokenIds.length = y.tokenIds.length ∧
      x.initialLength = y.initialLength := by
  rcases mem_of_mem_pruneLoop P.updateFn P.beamWidth _ [] x
    (by simpa [pruneElement] using hx) with h | ⟨y, hy, hxy⟩
  · exact absurd h (List.not_mem_nil x)
  · obtain ⟨h1, h2⟩ := hupd y x hxy
    exact ⟨y, (mem_sortDesc _).1 hy, h1, h2⟩

theorem runRound_beams_only {Cache Logits LogProbs : Type}
    (P : Params Cache Logits LogProbs) (hupd : UpdatePreserves P.updateFn)
    (state : List ElemState) (beams : List Beam) (indices : List Nat)
    (cache : Option Cache) :
    ∀ b ∈ (runRound P state beams indices cache).2.1,
      tooLong P.maxLength P.maxNewTokens b = false ∧
      ∃ parent ∈ beams, b.tokenIds.length = parent.tokenIds.length + 1 := by
  intro b hb
  simp only [runRound] at hb
  obtain ⟨st', hst', hbal⟩ := mem_filterBeams_beams P.stopFn P.scoreFn P.maxLength
    P.maxNewTokens P.beamWidth P.stopCondition _ b hb
  have h1 := elementFilter_alive_sub P.stopFn P.scoreFn P.maxLength P.maxNewTokens
    P.beamWidth P.stopCondition st' b hbal
  refine ⟨h1.2.2, ?_⟩
  obtain ⟨p, hp, hpe⟩ := List.mem_map.1 hst'
  have hmem : b ∈ pruneElement P p.2 := by rw [← hpe] at h1; exact h1.1
  obtain ⟨y, hy, hlen, _⟩ := pruneElement_mem P hupd p.2 b hmem
  have hrow : p.2 ∈ expandRound P state.length
      ((P.decodeFn (prepareInputs P beams cache).1 (prepareInputs P beams cache).2).1)
      beams indices := (List.of_mem_zip hp).2
  obtain ⟨parent, hparent, hlen', _⟩ := expandRound_child_provenance P state.length _
    beams indices p.2 hrow y hy
  exact ⟨parent, hparent, by omega⟩

theorem runRound_state_ok {Cache Logits LogProbs : Type}
    (P : Params Cache Logits LogProbs) (hupd : UpdatePreserves P.updateFn)
    (state : List ElemState) (beams : List Beam) (indices : List Nat)
    (cache : Option Cache)
    (hstate : StateOK P.maxLength P.maxNewTokens state)
    (hbeams : ∀ b ∈ beams, tooLong P.maxLength P.maxNewTokens b = false) :
    StateOK P.maxLength P.maxNewTokens (runRound P state beams indices cache).1 := by
  simp only [runRound]
  apply filterBeams_state_ok
  intro st' hst'
  obtain ⟨p, hp, hpe⟩ := List.mem_map.1 hst'
  have hel : ElemOK P.maxLength P.maxNewTokens p.1 := hstate p.1 (List.of_mem_zip hp).1
  have hrow : p.2 ∈ expandRound P state.length
      ((P.decodeFn (prepareInputs P beams cache).1 (prepareInputs P beams cache).2).1)
      beams indices := (List.of_mem_zip hp).2
  rw [← hpe]
  refine ⟨?_, hel.2.1, hel.2.2⟩
  intro b hb
  obtain ⟨y, hy, hlen, hinit⟩ := pruneElement_mem P hupd p.2 b hb
  obtain ⟨parent, hparent, hlen', hinit'⟩ := expandRound_child_provenance P state.length _
    beams indices p.2 hrow y hy
  have hpl := lt_of_tooLong_false (hbeams parent hparent)
  constructor
  · simp only [Beam.length] at hpl ⊢
    omega
  · intro m hm
    have hpd := decoded_lt_of_tooLong_false (hm ▸ hbeams parent hparent)
    simp only [Beam.decodedLength] at hpd ⊢
    omega

/-- Remaining room of a beam: how many tokens it may still gain before
reaching `max_length`. -/
def roomLeft (maxLength : Int) (b : Beam) : Nat := (maxLength - (b.length : Int)).toNat

/-- The largest remaining room over a round's alive beams: the loop variant
of the `while beams` loop. -/
def maxRoom (maxLength : Int) (beams : List Beam) : Nat :=
  (beams.map (roomLeft maxLength)).foldr max 0

theorem le_maxRoom (maxLength : Int) {beams : List Beam} {b : Beam} (hb : b ∈ beams) :
    roomLeft maxLength b ≤ maxRoom maxLength beams := by
  induction beams with
  | nil => exact absurd hb (List.not_mem_nil b)
  | cons x xs ih =>
    rcases List.mem_cons.1 hb with h | h
    · subst h
      exact Nat.le_max_left _ _
    · exact le_trans (ih h) (Nat.le_max_right _ _)

theorem maxRoom_le {maxLength : Int} {beams : List Beam} {n : Nat}
    (h : ∀ b ∈ beams, roomLeft maxLength b ≤ n) : maxRoom maxLength beams ≤ n := by
  induction beams with
  | nil => exact Nat.zero_le n
  | cons x xs ih =>
    simp only [maxRoom, List.map_cons, List.foldr_cons]
    exact Nat.max_le.2 ⟨h x (List.mem_cons_self _ _),
      ih fun b hb => h b (List.mem_cons_of_mem _ hb)⟩

theorem searchLoop_terminates {Cache Logits LogProbs : Type}
    (P : Params Cache Logits LogProbs) (hupd : UpdatePreserves P.updateFn) :
    ∀ (fuel : Nat) (state : List ElemState) (beams : List Beam) (indices : List Nat)
      (cache : Option Cache) (yielded : List (List (List Beam))),
      (∀ b ∈ beams, tooLong P.maxLength P.maxNewTokens b = false) →
      maxRoom P.maxLength beams ≤ fuel →
      (searchLoop P fuel state beams indices cache yielded).isSome := by
  intro fuel
  induction fuel with
  | zero =>
    intro state beams indices cache yielded hbeams hfuel
    by_cases hb : beams = []
    · simp [searchLoop, hb]
    · obtain ⟨b0, hb0⟩ := List.exists_mem_of_ne_nil beams hb
      have h1 : (b0.length : Int) < P.maxLength := lt_of_tooLong_false (hbeams b0 hb0)
      have h2 : 1 ≤ roomLeft P.maxLength b0 := by unfold roomLeft; omega
      have h3 := le_maxRoom P.maxLength hb0
      omega
  | succ f ih =>
    intro state beams indices cache yielded hbeams hfuel
    by_cases hb : beams = []
    · simp [searchLoop, hb]
    · rw [searchLoop]
      simp only [if_neg hb]
      have hnext := runRound_beams_only P hupd state beams indices cache
      have hbeams' : ∀ b ∈ (runRound P state beams indices cache).2.1,
          tooLong P.maxLength P.maxNewTokens b = false := fun b hb' => (hnext b hb').1
      have hroom' : maxRoom P.maxLength (runRound P state beams indices cache).2.1 ≤ f := by
        apply maxRoom_le
        intro b hb'
        obtain ⟨-, parent, hparent, hlen⟩ := hnext b hb'
        have hple := le_maxRoom P.maxLength hparent
        have hplt := lt_of_tooLong_false (hbeams parent hparent)
        simp only [roomLeft, Beam.length] at hple hplt ⊢
        omega
      cases hyi : P.yieldIntermediate
      · simpa [hyi] using ih _ (runRound P state beams indices cache).2.1
          (runRound P state beams indices cache).2.2.1
          (runRound P state beams indices cache).2.2.2 yielded hbeams' hroom'
      · simpa [hyi] using ih _ (runRound P state beams indices cache).2.1
          (runRound P state beams indices cache).2.2.1
          (runRound P state beams indices cache).2.2.2 _ hbeams' hroom'

theorem searchLoop_bounds {Cache Logits LogProbs : Type}
    (P : Params Cache Logits LogProbs) (hupd : UpdatePreserves P.updateFn) :
    ∀ (fuel : Nat) (state : List ElemState) (beams : List Beam) (indices : List Nat)
      (cache : Option Cache) (yielded : List (List (List Beam))),
      StateOK P.maxLength P.maxNewTokens state →
      (∀ b ∈ beams, tooLong P.maxLength P.maxNewTokens b = false) →
      maxRoom P.maxLength beams ≤ fuel →
      (∀ y ∈ yielded, ∀ o ∈ y, ∀ b ∈ o, LenOK P.maxLength P.maxNewTokens b) →
      ∃ out yields, searchLoop P fuel state beams indices cache yielded = some (out, yields) ∧
        (∀ o ∈ out, ∀ b ∈ o, LenOK P.maxLength P.maxNewTokens b) ∧
        (∀ y ∈ yields, ∀ o ∈ y, ∀ b ∈ o, LenOK P.maxLength P.maxNewTokens b) := by
  intro fuel
  induction fuel with
  | zero =>
    intro state beams indices cache yielded hstate hbeams hfuel hyielded
    by_cases hb : beams = []
    · refine ⟨(getOutputs P.scoreFn P.beamWidth P.returnUnfinished state).1,
        yielded.reverse, by rw [searchLoop]; simp [hb], ?_, ?_⟩
      · exact (getOutputs_ok P.scoreFn P.beamWidth P.returnUnfinished P.maxLength
          P.maxNewTokens state hstate).2
      · intro y hy
        exact hyielded y (List.mem_reverse.1 hy)
    · obtain ⟨b0, hb0⟩ := List.exists_mem_of_ne_nil beams hb
      have h1 : (b0.length : Int) < P.maxLength := lt_of_tooLong_false (hbeams b0 hb0)
      have h2 : 1 ≤ roomLeft P.maxLength b0 := by unfold roomLeft; omega
      have h3 := le_maxRoom P.maxLength hb0
      omega
  | succ f ih =>
    intro state beams indices cache yielded hstate hbeams hfuel hyielded
    by_cases hb : beams = []
    · refine ⟨(getOutputs P.scoreFn P.beamWidth P.returnUnfinished state).1,
        yielded.reverse, by rw [searchLoop]; simp [hb], ?_, ?_⟩
      · exact (getOutputs_ok P.scoreFn P.beamWidth P.returnUnfinished P.maxLength
          P.maxNewTokens state hstate).2
      · intro y hy
        exact hyielded y (List.mem_reverse.1 hy)
    · rw [searchLoop]
      simp only [if_neg hb]
      have hnext := runRound_beams_only P hupd state beams indices cache
      have hstate' := runRound_state_ok P hupd state beams indices cache hstate hbeams
      have hbeams' : ∀ b ∈ (runRound P state beams indices cache).2.1,
          tooLong P.maxLength P.maxNewTokens b = false := fun b hb' => (hnext b hb').1
      have hroom' : maxRoom P.maxLength (runRound P state beams indices cache).2.1 ≤ f := by
        apply maxRoom_le
        intro b hb'
        obtain ⟨-, parent, hparent, hlen⟩ := hnext b hb'
        have hple := le_maxRoom P.maxLength hparent
        have hplt := lt_of_tooLong_false (hbeams parent hparent)
        simp only [roomLeft, Beam.length] at hple hplt ⊢
        omega
      cases hyi : P.yieldIntermediate
      · simp only [hyi, if_neg (by simp : ¬(false = true))]
        exact ih _ (runRound P state beams indices cache).2.1
          (runRound P state beams indices cache).2.2.1
          (runRound P state beams indices cache).2.2.2 yielded hstate' hbeams' hroom' hyielded
      · simp only [hyi, if_pos rfl]
        refine ih _ (runRound P state beams indices cache).2.1
          (runRound P state beams indices cache).2.2.1
          (runRound P state beams indices cache).2.2.2 _
          ?_ hbeams' hroom' ?_
        · exact (getOutputs_ok P.scoreFn P.beamWidth P.returnUnfinished P.maxLength
            P.maxNewTokens _ hstate').1
        · intro y hy
          rcases List.mem_cons.1 hy with h' | h'
          · subst h'
            exact (getOutputs_ok P.scoreFn P.beamWidth P.returnUnfinished P.maxLength
              P.maxNewTokens _ hstate').2
          · exact hyielded y h'

/-- C8: for every configuration that passes validation, the round loop of
`beam_search` terminates within `max_length` rounds, because each alive beam
of a round gains exactly one token and `too_long` removes beams from the
alive set at the caps, provided the update hook preserves lengths (as the
claim's own mechanism — one gained token per beam per round — presumes). -/
theorem c8_loop_terminates {Cache Logits LogProbs : Type}
    (P : Params Cache Logits LogProbs) (initial : List (List Int ⊕ Beam))
    (hupd : UpdatePreserves P.updateFn)
    (hvalid : validateArgs P initial = true) :
    ∃ r, beamSearch P initial = .ok r := by
  unfold beamSearch
  rw [if_pos hvalid]
  have hbeams : ∀ b ∈ (filterBeams P.stopFn P.scoreFn P.maxLength P.maxNewTokens
      P.beamWidth P.stopCondition (initState initial)).2.1,
      tooLong P.maxLength P.maxNewTokens b = false := by
    intro b hb
    obtain ⟨st, hst, hbal⟩ := mem_filterBeams_beams P.stopFn P.scoreFn P.maxLength
      P.maxNewTokens P.beamWidth P.stopCondition _ b hb
    exact (elementFilter_alive_sub P.stopFn P.scoreFn P.maxLength P.maxNewTokens
      P.beamWidth P.stopCondition st b hbal).2.2
  have hroom : maxRoom P.maxLength (filterBeams P.stopFn P.scoreFn P.maxLength
      P.maxNewTokens P.beamWidth P.stopCondition (initState initial)).2.1 ≤
      P.maxLength.toNat := by
    apply maxRoom_le
    intro b _
    simp only [roomLeft]
    omega
  have hsome := searchLoop_terminates P hupd P.maxLength.toNat
    (filterBeams P.stopFn P.scoreFn P.maxLength P.maxNewTokens P.beamWidth
      P.stopCondition (initState initial)).1
    (filterBeams P.stopFn P.scoreFn P.maxLength P.maxNewTokens P.beamWidth
      P.stopCondition (initState initial)).2.1
    (filterBeams P.stopFn P.scoreFn P.maxLength P.maxNewTokens P.beamWidth
      P.stopCondition (initState initial)).2.2 none [] hbeams hroom
  obtain ⟨r, hr⟩ := Option.isSome_iff_exists.1 hsome
  exact ⟨r, by rw [hr]⟩

/-- C7 (amended): provided the update hook preserves lengths and every
initial beam is itself within the caps (`max_length` total tokens;
`max_new_tokens` decoded tokens for a caller-supplied beam), every beam
returned by `beam_search` — in the final outputs and in every intermediate
snapshot, including too-long beams backfilled under `return_unfinished` —
has at most `max_length` tokens in total and, when `max_new_tokens` is set,
at most that many decoded tokens. -/
theorem c7_output_within_caps {Cache Logits LogProbs : Type}
    (P : Params Cache Logits LogProbs) (initial : List (List Int ⊕ Beam))
    (r : List (List Beam) × List (List (List Beam)))
    (hupd : UpdatePreserves P.updateFn)
    (hinit : ∀ init ∈ initial, match init with
      | Sum.inl ids => (ids.length : Int) ≤ P.maxLength
      | Sum.inr b => (b.length : Int) ≤ P.maxLength ∧
          ∀ m, P.maxNewTokens = some m → b.decodedLength ≤ m)
    (hmnt : ∀ m, P.maxNewTokens = some m → 0 ≤ m)
    (hok : beamSearch P initial = .ok r) :
    (∀ o ∈ r.1, ∀ b ∈ o, LenOK P.maxLength P.maxNewTokens b) ∧
    (∀ y ∈ r.2, ∀ o ∈ y, ∀ b ∈ o, LenOK P.maxLength P.maxNewTokens b) := by
  unfold beamSearch at hok
  by_cases hv : validateArgs P initial = true
  · rw [if_pos hv] at hok
    have hstate0 : StateOK P.maxLength P.maxNewTokens (initState initial) := by
      intro st hst
      obtain ⟨init, hi, he⟩ := List.mem_map.1 hst
      have hinit' := hinit init hi
      rcases init with ids | b
      · simp only [initState] at he
        subst he
        refine ⟨?_, by simp, by simp⟩
        intro b hb
        rw [List.mem_singleton.1 hb]
        refine ⟨by simpa [Beam.ofTokenIds, Beam.length] using hinit', ?_⟩
        intro m hm
        simp only [Beam.ofTokenIds, Beam.decodedLength]
        have := hmnt m hm
        omega
      · simp only [initState] at he
        subst he
        refine ⟨?_, by simp, by simp⟩
        intro b' hb'
        rw [List.mem_singleton.1 hb']
        exact hinit'
    have hstate1 := filterBeams_state_ok P.stopFn P.scoreFn P.maxLength P.maxNewTokens
      P.beamWidth P.stopCondition (initState initial) hstate0
    have hbeams : ∀ b ∈ (filterBeams P.stopFn P.scoreFn P.maxLength P.maxNewTokens
        P.beamWidth P.stopCondition (initState initial)).2.1,
        tooLong P.maxLength P.maxNewTokens b = false := by
      intro b hb
      obtain ⟨st, hst, hbal⟩ := mem_filterBeams_beams P.stopFn P.scoreFn P.maxLength
        P.maxNewTokens P.beamWidth P.stopCondition _ b hb
      exact (elementFilter_alive_sub P.stopFn P.scoreFn P.maxLength P.maxNewTokens
        P.beamWidth P.stopCondition st b hbal).2.2
    have hroom : maxRoom P.maxLength (filterBeams P.stopFn P.scoreFn P.maxLength
        P.maxNewTokens P.beamWidth P.stopCondition (initState initial)).2.1 ≤
        P.maxLength.toNat := by
      apply maxRoom_le
      intro b _
      simp only [roomLeft]
      omega
    obtain ⟨out, yields, hsome, hout, hyields⟩ := searchLoop_bounds P hupd
      P.maxLength.toNat _ _
      (filterBeams P.stopFn P.scoreFn P.maxLength P.maxNewTokens P.beamWidth
        P.stopCondition (initState initial)).2.2 none [] hstate1 hbeams hroom (by simp)
    rw [hsome] at hok
    have hr' : (Except.ok (out, yields) : Except String _) = Except.ok r := hok
    obtain rfl := (Except.ok.inj hr').symm
    exact ⟨hout, hyields⟩
  · rw [if_neg hv] at hok
    exact absurd hok (by simp)

def c7Params : Params Unit Unit Unit :=
  { c9Params with maxLength := 3, stopFn := (fun _ => true), beamWidth := 1 }

/-- Counterexample to C7 as stated: an initial sequence of 4 tokens with
`max_length = 3` is finished by the stop predicate in the very first filter
step and returned, so the output beam exceeds `max_length`. -/
theorem c7_counterexample :
    c7Params.maxLength = 3 ∧
    beamSearch c7Params [Sum.inl [1, 2, 3, 4]] =
      .ok ([[⟨[1, 2, 3, 4], 4, [], none, some "done"⟩]], []) ∧
    ¬ ((((⟨[1, 2, 3, 4], 4, [], none, some "done"⟩ : Beam).length : Int)) ≤
        c7Params.maxLength) := by
  exact ⟨rfl, rfl, by decide⟩

def c7wParams : Params Unit Unit Unit :=
  { c9Params with maxLength := 3 }

/-- Witness for C7 (amended) on a concrete run from the one-token seed `[5]`
with `max_length = 3`. -/
theorem c7_witness :
    beamSearch c7wParams [Sum.inl [5]] = .ok ([[]], []) ∧
    (∀ o ∈ ([[]] : List (List Beam)), ∀ b ∈ o,
      LenOK c7wParams.maxLength c7wParams.maxNewTokens b) := by
  have h := c7_output_within_caps c7wParams [Sum.inl [5]] ([[]], [])
    (fun b b' hb => by rw [← Option.some_inj.1 hb]; exact ⟨rfl, rfl⟩)
    (by intro init hi; rcases List.mem_singleton.1 hi with rfl; decide)
    (by intro m hm; cases hm)
    rfl
  exact ⟨rfl, h.1⟩

/-- Witness for C8 on the same concrete run: validation passes and the run
returns. -/
theorem c8_witness :
    validateArgs c7wParams [Sum.inl [5]] = true ∧
    ∃ r, beamSearch c7wParams [Sum.inl [5]] = .ok r := by
  refine ⟨rfl, ?_⟩
  exact c8_loop_terminates c7wParams [Sum.inl [5]]
    (fun b b' hb => by rw [← Option.some_inj.1 hb]; exact ⟨rfl, rfl⟩) rfl

def c2Params : Params Unit Unit Unit :=
  { c9Params with
      maxLength := 3
      yieldIntermediate := true
      returnUnfinished := true
      sampleFn := fun _ _ => [[(7, (0 : WithBot ℚ))]] }

/-- The run demonstrating the C2 violation: with `yield_intermediate` and
`return_unfinished` both enabled, the round-2 intermediate `get_outputs`
extends `finished_beams[0]` in place with the too-long beam (which stays in
`too_long_beams[0]` as well), and the final `get_outputs` appends it once
more, so the final output for the element contains the very same beam
twice.  The intermediate state after the second snapshot has the beam in
both the finished and the too-long list at once. -/
theorem c2_duplicate_beam_run :
    beamSearch c2Params [Sum.inl [5]] =
      .ok ([[⟨[5, 7, 7], 1, [0, 0], some 0, some "length"⟩,
             ⟨[5, 7, 7], 1, [0, 0], some 0, some "length"⟩]],
           [[[]], [[⟨[5, 7, 7], 1, [0, 0], some 0, some "length"⟩]]]) ∧
    (getOutputsElem c2Params.scoreFn c2Params.beamWidth true
        ⟨[], [], [⟨[5, 7, 7], 1, [0, 0], some 0, some "length"⟩]⟩).2 =
      ⟨[], [⟨[5, 7, 7], 1, [0, 0], some 0, some "length"⟩],
        [⟨[5, 7, 7], 1, [0, 0], some 0, some "length"⟩]⟩ := by
  exact ⟨rfl, rfl⟩
